import Mathlib

/-!
Verification development for the Plan-and-Envelope Verification Core
(g3-core `tools/invariants.rs`, `tools/envelope.rs`, `tools/datalog.rs`,
and the studio SDLC pipeline `sdlc.rs`).

The Rust code is shallowly embedded: YAML values become an inductive type,
hash-set-valued results become lists read up to membership, file-system
effects become explicit record-state passing, and machine integers become
`Nat` with explicit `% 2 ^ 64` where overflow matters.
-/

namespace G3

/-! ## YAML value model

Mirrors `serde_yaml::Value` as used by the core. Mapping keys are modelled
as strings: field selection (`Mapping::get(Value::String(..))`) only ever
matches string keys, and fact extraction stringifies keys before use, so
string keys carry the whole observable behaviour. Numbers are carried by
their textual form (the code only ever observes `Number::to_string`,
except in the direct evaluator which is not the subject of these claims).
`Tagged` values are not modelled. -/
inductive Yaml where
  | null
  | bool (b : Bool)
  | num (rep : String)
  | str (s : String)
  | seq (items : List Yaml)
  | map (entries : List (String × Yaml))

/-- First-match association lookup, modelling `serde_yaml::Mapping::get`
with a string key (mapping keys are unique after parsing). -/
def lookupMap (entries : List (String × Yaml)) (key : String) : Option Yaml :=
  match entries with
  | [] => none
  | (k, v) :: rest => if k = key then some v else lookupMap rest key

mutual

/-- `yaml_value_to_string` from `datalog.rs`: the total flattening of a YAML
value to a string for uniform datalog handling. -/
def yamlValueToString : Yaml → String
  | .null => "null"
  | .bool b => if b then "true" else "false"
  | .num rep => rep
  | .str s => s
  | .seq items => "[" ++ String.intercalate ", " (yamlListToStrings items) ++ "]"
  | .map _ => "\x7bobject\x7d"

/-- Helper for `yamlValueToString` on sequences (the `seq.iter().map(..)`). -/
def yamlListToStrings : List Yaml → List String
  | [] => []
  | v :: vs => yamlValueToString v :: yamlListToStrings vs

end

/-! ## Selector (`invariants.rs`, `Selector`)

A parsed selector is an ordered list of segments. Parsing mirrors the
character loop of `Selector::parse`; selection mirrors `select_recursive`. -/

inductive SelectorSegment where
  | field (name : String)
  | index (i : Nat)
  | wildcard
deriving Repr, DecidableEq

structure Selector where
  segments : List SelectorSegment
deriving Repr, DecidableEq

/-- Model of Rust's `str::parse::<usize>()`: an optional leading `+`, then
one or more ASCII digits, value below `2 ^ 64` (64-bit `usize`). -/
def parseUsize (s : String) : Option Nat :=
  let cs := match s.data with
    | '+' :: rest => rest
    | cs => cs
  if cs.isEmpty then none
  else if cs.all Char.isDigit then
    let n := cs.foldl (fun acc c => acc * 10 + (c.toNat - 48)) 0
    if n < 2 ^ 64 then some n else none
  else none

/-- Prepend the pending field accumulator, if non-empty, to a segment list
(the `if !current.is_empty() { segments.push(..) }` steps). -/
def pushCur (cur : String) (segs : List SelectorSegment) : List SelectorSegment :=
  if cur.isEmpty then segs else .field cur :: segs

/-- Turn a consumed bracket content into a segment: `*` is a wildcard,
otherwise the content must parse as a `usize` index. -/
def bracketSeg (acc : String) : Except String SelectorSegment :=
  if acc = "*" then .ok .wildcard
  else
    match parseUsize acc with
    | some n => .ok (.index n)
    | none => .error ("Invalid array index: " ++ acc)

/-- The parser position: in the outer loop with the pending field
accumulator, or inside a `[...]` with the index accumulator (the inner
`while` of `Selector::parse`). -/
inductive ParseMode where
  | top (cur : String)
  | bracket (acc : String)

/-- The character loop of `Selector::parse`. A recursive rendering of the
Rust `while let` loop: the segments produced after the current position
are computed first and the pending segment is prepended, which yields the
same left-to-right segment order as the imperative `push` calls. An
unterminated bracket keeps its accumulated content at end of input,
exactly as the Rust inner loop does. -/
def parseChars : List Char → ParseMode → Except String (List SelectorSegment)
  | [], .top cur => .ok (pushCur cur [])
  | [], .bracket acc => (bracketSeg acc).map (fun seg => [seg])
  | c :: rest, .top cur =>
    if c = '.' then (parseChars rest (.top "")).map (pushCur cur)
    else if c = '[' then (parseChars rest (.bracket "")).map (pushCur cur)
    else if c = ']' then .error "Unexpected ']' in selector"
    else parseChars rest (.top (cur.push c))
  | c :: rest, .bracket acc =>
    if c = ']' then
      match bracketSeg acc with
      | .error e => .error e
      | .ok seg => (parseChars rest (.top "")).map (fun t => seg :: t)
    else parseChars rest (.bracket (acc.push c))

/-- Model of Rust's `str::trim` (drop whitespace from both ends). -/
def trimChars (s : String) : String :=
  String.mk (((s.data.dropWhile Char.isWhitespace).reverse.dropWhile
    Char.isWhitespace).reverse)

/-- `Selector::parse`: trim, reject empty input, run the loop, reject an
empty segment list. -/
def Selector.parse (s : String) : Except String Selector :=
  let t := trimChars s
  if t.isEmpty then .error "Selector cannot be empty"
  else
    match parseChars t.data (.top "") with
    | .error e => .error e
    | .ok [] => .error "Selector produced no segments"
    | .ok segs => .ok ⟨segs⟩

/-- `select_recursive`: a field descends only through mappings, an index
only through sequences, a wildcard fans out over a sequence. Missing keys
yield the empty result. -/
def selectSegs : List SelectorSegment → Yaml → List Yaml
  | [], v => [v]
  | .field name :: rest, v =>
    match v with
    | .map entries =>
      match lookupMap entries name with
      | some v' => selectSegs rest v'
      | none => []
    | _ => []
  | .index i :: rest, v =>
    match v with
    | .seq items =>
      match items.get? i with
      | some v' => selectSegs rest v'
      | none => []
    | _ => []
  | .wildcard :: rest, v =>
    match v with
    | .seq items => items.flatMap (selectSegs rest)
    | _ => []

/-- `Selector::select`. -/
def Selector.select (sel : Selector) (v : Yaml) : List Yaml :=
  selectSegs sel.segments v

/-! ## Rulespec and envelope model (`invariants.rs`) -/

inductive InvariantSource where
  | taskPrompt
  | memory
deriving Repr, DecidableEq

/-- `PredicateRule`: the closed set of rule tags. -/
inductive PredicateRule where
  | contains
  | equals
  | exists
  | notExists
  | greaterThan
  | lessThan
  | minLength
  | maxLength
  | matches
  | notContains
  | anyOf
  | noneOf
deriving Repr, DecidableEq

structure Claim where
  name : String
  selector : String

structure WhenCondition where
  claim : String
  rule : PredicateRule
  value : Option Yaml

structure Predicate where
  claim : String
  rule : PredicateRule
  value : Option Yaml
  source : InvariantSource
  notes : Option String
  «when» : Option WhenCondition

structure Rulespec where
  claims : List Claim
  predicates : List Predicate

/-- `ActionEnvelope`: the agent's facts (a `HashMap<String, Value>`,
modelled as an association list) plus the optional `verified` stamp. -/
structure ActionEnvelope where
  facts : List (String × Yaml)
  verified : Option String

/-- `ActionEnvelope::to_yaml_value`: wrap the facts in a root mapping
(the `verified` field is not included). -/
def ActionEnvelope.to_yaml_value (e : ActionEnvelope) : Yaml :=
  .map e.facts

/-! ## Rulespec compiler (`datalog.rs`, `compile_rulespec`) -/

structure CompiledWhenCondition where
  claim_name : String
  selector : String
  rule : PredicateRule
  expected_value : Option String

structure CompiledPredicate where
  id : Nat
  claim_name : String
  selector : String
  rule : PredicateRule
  expected_value : Option String
  source : InvariantSource
  notes : Option String
  «when» : Option CompiledWhenCondition

structure CompiledRulespec where
  plan_id : String
  compiled_at_revision : Nat
  predicates : List CompiledPredicate
  claims : List (String × String)

/-- `HashMap::insert` on the name-to-selector map, modelled as
replace-or-append on the association list. -/
def insertClaim (claims : List (String × String)) (name sel : String) :
    List (String × String) :=
  match claims with
  | [] => [(name, sel)]
  | (k, v) :: rest =>
    if k = name then (k, sel) :: rest else (k, v) :: insertClaim rest name sel

/-- Association lookup on the compiled claims map (`HashMap::get`). -/
def lookupClaim (claims : List (String × String)) (name : String) : Option String :=
  match claims with
  | [] => none
  | (k, v) :: rest => if k = name then some v else lookupClaim rest name

/-- The claim-validation fold of `compile_rulespec`: parse-check every
selector and build the name-to-selector map. -/
def buildClaims : List Claim → List (String × String) →
    Except String (List (String × String))
  | [], acc => .ok acc
  | c :: rest, acc =>
    match Selector.parse c.selector with
    | .error e =>
      .error ("Invalid selector '" ++ c.selector ++ "' in claim '" ++ c.name ++ "': " ++ e)
    | .ok _ => buildClaims rest (insertClaim acc c.name c.selector)

/-- The predicate-compilation loop of `compile_rulespec` (with running
index `idx`). -/
def compilePredicates (claims : List (String × String)) :
    List Predicate → Nat → Except String (List CompiledPredicate)
  | [], _ => .ok []
  | p :: rest, idx =>
    match lookupClaim claims p.claim with
    | none =>
      .error ("Predicate " ++ toString idx ++ " references unknown claim '" ++ p.claim ++ "'")
    | some selector =>
      let compiledWhen := p.when.map (fun w =>
        { claim_name := w.claim
          selector := (lookupClaim claims w.claim).getD ""
          rule := w.rule
          expected_value := w.value.map yamlValueToString : CompiledWhenCondition })
      (compilePredicates claims rest (idx + 1)).map (fun tail =>
        { id := idx
          claim_name := p.claim
          selector := selector
          rule := p.rule
          expected_value := p.value.map yamlValueToString
          source := p.source
          notes := p.notes
          «when» := compiledWhen : CompiledPredicate } :: tail)

/-- `compile_rulespec`. -/
def compile_rulespec (rulespec : Rulespec) (plan_id : String) (revision : Nat) :
    Except String CompiledRulespec :=
  match buildClaims rulespec.claims [] with
  | .error e => .error e
  | .ok claims =>
    match compilePredicates claims rulespec.predicates 0 with
    | .error e => .error e
    | .ok preds =>
      .ok { plan_id := plan_id
            compiled_at_revision := revision
            predicates := preds
            claims := claims }

/-! ## Fact extraction (`datalog.rs`, `extract_facts`)

The Rust code accumulates into a `HashSet<Fact>`; here extraction returns
a list read up to membership (duplicates collapse in the set). -/

structure Fact where
  claim_name : String
  value : String
deriving Repr, DecidableEq

mutual

/-- `extract_values_recursive`: sequences emit one fact per element plus a
`__length` fact, mappings emit an `\x7bobject\x7d` marker and recurse per
key, nulls emit nothing, scalars emit their flattened string. -/
def extractValuesRec (cn : String) : Yaml → List Fact
  | .seq items => extractSeqFacts cn items ++ [⟨cn ++ ".__length", toString items.length⟩]
  | .map entries => ⟨cn, "\x7bobject\x7d"⟩ :: extractMapFacts cn entries
  | .null => []
  | .bool b => [⟨cn, yamlValueToString (.bool b)⟩]
  | .num rep => [⟨cn, yamlValueToString (.num rep)⟩]
  | .str s => [⟨cn, yamlValueToString (.str s)⟩]

def extractSeqFacts (cn : String) : List Yaml → List Fact
  | [] => []
  | v :: vs => extractValuesRec cn v ++ extractSeqFacts cn vs

def extractMapFacts (cn : String) : List (String × Yaml) → List Fact
  | [] => []
  | (k, v) :: rest => extractValuesRec (cn ++ "." ++ k) v ++ extractMapFacts cn rest

end

/-- The per-claim body of the `extract_facts` loop: parse the selector
(skipping invalid ones), select against the envelope value, fall back to
the `facts`-wrapped value when the first pass is empty, then extract. -/
def claimFacts (envelope_value wrapped_value : Yaml) (claim_name selector_str : String) :
    List Fact :=
  match Selector.parse selector_str with
  | .error _ => []
  | .ok selector =>
    let values := selector.select envelope_value
    let values := if values.isEmpty then selector.select wrapped_value else values
    values.flatMap (extractValuesRec claim_name)

/-- `extract_facts` (the `envelope_value` and its `facts`-wrapped version
are passed to the per-claim body). -/
def extract_facts (envelope : ActionEnvelope) (compiled : CompiledRulespec) : List Fact :=
  compiled.claims.flatMap (fun p =>
    claimFacts envelope.to_yaml_value
      (Yaml.map [("facts", envelope.to_yaml_value)]) p.1 p.2)

/-! ## Datalog execution (`datalog.rs`, `execute_rules`)

The executor builds a lookup `claim_name → set<value>`; here the value set
of a claim is the deduplicated list of values of its facts (the `Fact`
level already deduplicates in Rust, so equal values under one claim
collapse). -/

/-- The value set for a claim in the `fact_lookup` map. An empty list
models an absent key (a `HashMap` entry exists exactly when some fact has
the claim name, and then its set is non-empty). -/
def lookupValues (facts : List Fact) (name : String) : List String :=
  ((facts.filter (fun f => f.claim_name = name)).map Fact.value).dedup

structure DatalogPredicateResult where
  id : Nat
  claim_name : String
  rule : PredicateRule
  expected_value : Option String
  passed : Bool
  reason : String
  source : InvariantSource
  notes : Option String

structure DatalogExecutionResult where
  predicate_results : List DatalogPredicateResult
  fact_count : Nat
  passed_count : Nat
  failed_count : Nat

/-- Model of `regex::Regex` matching, external to this repository: every
pattern compiles and matching is modelled as substring containment. No
claim settled here depends on the matching semantics, only on the shape
of the `matches` branch. -/
def regexIsMatch (pattern s : String) : Bool :=
  (s.splitOn pattern).length > 1 || pattern.isEmpty

/-- Parse the elements of a stored sequence string back (`any_of`/`none_of`:
`trim_matches` the brackets from both ends, split on `", "`). -/
def parseSetElements (v : String) : List String :=
  let p := fun c => c = '[' || c = ']'
  (String.mk (((v.data.dropWhile p).reverse.dropWhile p).reverse)).splitOn ", "

/-- Accumulate a digit run into a natural number. -/
def digitsVal (cs : List Char) : Nat :=
  cs.foldl (fun a c => a * 10 + (c.toNat - 48)) 0

/-- Model of Rust's `str::parse::<f64>()`, external to this repository:
an optional sign, a digit run, and an optional fractional part, read into
an exact rational. No claim settled here depends on the numeric parse
beyond its shape. -/
def parseFloatModel (s : String) : Option Rat :=
  let neg := s.startsWith "-"
  let body := if s.startsWith "-" || s.startsWith "+" then s.drop 1 else s
  match body.splitOn "." with
  | [a] =>
    if a.isEmpty || !a.data.all Char.isDigit then none
    else some (if neg then -(digitsVal a.data : Rat) else (digitsVal a.data : Rat))
  | [a, b] =>
    if (a.isEmpty && b.isEmpty) || !a.data.all Char.isDigit || !b.data.all Char.isDigit then
      none
    else
      let v : Rat := digitsVal a.data + (digitsVal b.data : Rat) / ((10 : Rat) ^ b.data.length)
      some (if neg then -v else v)
  | _ => none

/-- `evaluate_predicate_datalog`: evaluate one compiled predicate against
the fact lookup. -/
def evaluate_predicate_datalog (pred : CompiledPredicate) (facts : List Fact) :
    DatalogPredicateResult :=
  let claim_values := lookupValues facts pred.claim_name
  let (passed, reason) :=
    match pred.rule with
    | .exists =>
      if !claim_values.isEmpty then (true, "Value exists")
      else (false, "Value does not exist")
    | .notExists =>
      if claim_values.isEmpty then (true, "Value does not exist as expected")
      else (false, "Value exists but should not")
    | .contains =>
      let expected := pred.expected_value.getD ""
      if claim_values.isEmpty then
        (false, "Claim '" ++ pred.claim_name ++ "' has no values")
      else if claim_values.contains expected then
        (true, "Contains '" ++ expected ++ "'")
      else (false, "Does not contain '" ++ expected ++ "'")
    | .equals =>
      let expected := pred.expected_value.getD ""
      if claim_values.isEmpty then
        (false, "Claim '" ++ pred.claim_name ++ "' has no values")
      else if claim_values.length = 1 && claim_values.contains expected then
        (true, "Equals '" ++ expected ++ "'")
      else if claim_values.length > 1 then
        (false, "Multiple values found, expected single value '" ++ expected ++ "'")
      else
        (false, "Expected '" ++ expected ++ "', got '" ++
          (claim_values.head?.getD "<none>") ++ "'")
    | .minLength =>
      let expected := (pred.expected_value.bind parseUsize).getD 0
      let length := ((lookupValues facts (pred.claim_name ++ ".__length")).head?.bind
        parseUsize).getD 0
      if length ≥ expected then
        (true, "Length " ++ toString length ++ " >= " ++ toString expected)
      else (false, "Length " ++ toString length ++ " < " ++ toString expected ++ " (minimum)")
    | .maxLength =>
      let expected := (pred.expected_value.bind parseUsize).getD (2 ^ 64 - 1)
      let length := ((lookupValues facts (pred.claim_name ++ ".__length")).head?.bind
        parseUsize).getD 0
      if length ≤ expected then
        (true, "Length " ++ toString length ++ " <= " ++ toString expected)
      else (false, "Length " ++ toString length ++ " > " ++ toString expected ++ " (maximum)")
    | .greaterThan =>
      let expected := (pred.expected_value.bind parseFloatModel).getD 0
      if claim_values.isEmpty then
        (false, "Claim '" ++ pred.claim_name ++ "' has no values")
      else
        match claim_values.head?.bind parseFloatModel with
        | some actual =>
          if actual > expected then (true, "greater")
          else (false, "is not greater")
        | none => (false, "Value is not a number")
    | .lessThan =>
      let expected := (pred.expected_value.bind parseFloatModel).getD 0
      if claim_values.isEmpty then
        (false, "Claim '" ++ pred.claim_name ++ "' has no values")
      else
        match claim_values.head?.bind parseFloatModel with
        | some actual =>
          if actual < expected then (true, "less")
          else (false, "is not less")
        | none => (false, "Value is not a number")
    | .matches =>
      let pattern := pred.expected_value.getD ""
      if claim_values.isEmpty then
        (false, "Claim '" ++ pred.claim_name ++ "' has no values")
      else if claim_values.any (fun v => regexIsMatch pattern v) then
        (true, "Matches pattern '" ++ pattern ++ "'")
      else (false, "No value matches pattern '" ++ pattern ++ "'")
    | .notContains =>
      let expected := pred.expected_value.getD ""
      if claim_values.isEmpty then
        (true, "Claim '" ++ pred.claim_name ++ "' has no values (not_contains passes vacuously)")
      else if claim_values.contains expected then
        (false, "Contains '" ++ expected ++ "' but should not")
      else (true, "Does not contain '" ++ expected ++ "'")
    | .anyOf =>
      let expected_set := (pred.expected_value.map parseSetElements).getD []
      if claim_values.isEmpty then
        (false, "Claim '" ++ pred.claim_name ++ "' has no values")
      else if claim_values.any (fun v => expected_set.contains v) then
        (true, "Value is in allowed set")
      else (false, "Value is not in allowed set")
    | .noneOf =>
      let forbidden_set := (pred.expected_value.map parseSetElements).getD []
      if claim_values.isEmpty then
        (true, "Claim '" ++ pred.claim_name ++ "' has no values (none_of passes vacuously)")
      else if claim_values.any (fun v => forbidden_set.contains v) then
        (false, "Value is in forbidden set")
      else (true, "Value is not in forbidden set")
  { id := pred.id
    claim_name := pred.claim_name
    rule := pred.rule
    expected_value := pred.expected_value
    passed := passed
    reason := reason
    source := pred.source
    notes := pred.notes }

/-- The per-predicate body of `execute_rules`, with the `when`-guard
handling: a guard that does not hold records a vacuous pass and the outer
rule is not evaluated. -/
def evaluateWithWhen (pred : CompiledPredicate) (facts : List Fact) :
    DatalogPredicateResult :=
  match pred.when with
  | some w =>
    let when_pred : CompiledPredicate :=
      { id := 2 ^ 64 - 1
        claim_name := w.claim_name
        selector := w.selector
        rule := w.rule
        expected_value := w.expected_value
        source := pred.source
        notes := none
        «when» := none }
    if (evaluate_predicate_datalog when_pred facts).passed then
      evaluate_predicate_datalog pred facts
    else
      { id := pred.id
        claim_name := pred.claim_name
        rule := pred.rule
        expected_value := pred.expected_value
        passed := true
        reason := "Skipped (when condition not met)"
        source := pred.source
        notes := pred.notes }
  | none => evaluate_predicate_datalog pred facts

/-- `execute_rules`: evaluate every compiled predicate and aggregate the
pass/fail counts. (`fact_count` is the cardinality of the fact set.) -/
def execute_rules (compiled : CompiledRulespec) (facts : List Fact) :
    DatalogExecutionResult :=
  let results := compiled.predicates.map (fun p => evaluateWithWhen p facts)
  { predicate_results := results
    fact_count := facts.dedup.length
    passed_count := (results.filter (fun r => r.passed)).length
    failed_count := (results.filter (fun r => !r.passed)).length }

/-! ## Token computation (`envelope.rs`)

Bytes are naturals below 256; 64-bit words are naturals reduced
`% 2 ^ 64`. -/

/-- UTF-8 encoding of one character (Rust `str::as_bytes` views strings as
UTF-8 byte slices). -/
def encodeCharUtf8 (c : Char) : List Nat :=
  let n := c.toNat
  if n < 0x80 then [n]
  else if n < 0x800 then
    [0xC0 ||| (n >>> 6), 0x80 ||| (n &&& 0x3F)]
  else if n < 0x10000 then
    [0xE0 ||| (n >>> 12), 0x80 ||| ((n >>> 6) &&& 0x3F), 0x80 ||| (n &&& 0x3F)]
  else
    [0xF0 ||| (n >>> 18), 0x80 ||| ((n >>> 12) &&& 0x3F),
     0x80 ||| ((n >>> 6) &&& 0x3F), 0x80 ||| (n &&& 0x3F)]

/-- The UTF-8 bytes of a string. -/
def utf8Bytes (s : String) : List Nat :=
  s.data.flatMap encodeCharUtf8

/-- Little-endian value of a byte list. -/
def leVal : List Nat → Nat
  | [] => 0
  | b :: rest => b % 256 + 256 * leVal rest

/-- `u64::to_le_bytes`: the 8 little-endian bytes of a 64-bit word. -/
def toLeBytes (n : Nat) : List Nat :=
  [n % 256, (n >>> 8) % 256, (n >>> 16) % 256, (n >>> 24) % 256,
   (n >>> 32) % 256, (n >>> 40) % 256, (n >>> 48) % 256, (n >>> 56) % 256]

/-- 64-bit left rotation. -/
def rotl64 (x r : Nat) : Nat :=
  (((x % 2 ^ 64) <<< r) ||| ((x % 2 ^ 64) >>> (64 - r))) % 2 ^ 64

/-- One SipHash round on the four state words. -/
def sipRound : Nat × Nat × Nat × Nat → Nat × Nat × Nat × Nat
  | (v0, v1, v2, v3) =>
    let v0 := (v0 + v1) % 2 ^ 64
    let v1 := rotl64 v1 13
    let v1 := v1 ^^^ v0
    let v0 := rotl64 v0 32
    let v2 := (v2 + v3) % 2 ^ 64
    let v3 := rotl64 v3 16
    let v3 := v3 ^^^ v2
    let v0 := (v0 + v3) % 2 ^ 64
    let v3 := rotl64 v3 21
    let v3 := v3 ^^^ v0
    let v2 := (v2 + v1) % 2 ^ 64
    let v1 := rotl64 v1 17
    let v1 := v1 ^^^ v2
    let v2 := rotl64 v2 32
    (v0, v1, v2, v3)

/-- Compress one 8-byte message word with `c` SipHash rounds. -/
def sipCompress (c : Nat) (st : Nat × Nat × Nat × Nat) (m : Nat) :
    Nat × Nat × Nat × Nat :=
  let st := (st.1, st.2.1, st.2.2.1, st.2.2.2 ^^^ m)
  let st := sipRound^[c] st
  (st.1 ^^^ m, st.2.1, st.2.2.1, st.2.2.2)

/-- Fold the full 8-byte blocks of the message into the state, returning
the state and the remaining tail of fewer than 8 bytes. -/
def sipBlocks (c : Nat) (st : Nat × Nat × Nat × Nat) :
    List Nat → (Nat × Nat × Nat × Nat) × List Nat
  | b0 :: b1 :: b2 :: b3 :: b4 :: b5 :: b6 :: b7 :: rest =>
    sipBlocks c (sipCompress c st (leVal [b0, b1, b2, b3, b4, b5, b6, b7])) rest
  | tail => (st, tail)

/-- SipHash-2-4 of a byte list under the 128-bit key `(k0, k1)` (the
algorithm of `std::hash::SipHasher`): initialise the four state words from
the key, compress 8-byte blocks with 2 rounds each, fold the final block
carrying the message length in the top byte, then finalise with 4 rounds. -/
def sipHash24 (k0 k1 : Nat) (msg : List Nat) : Nat :=
  let v0 := (k0 % 2 ^ 64) ^^^ 0x736f6d6570736575
  let v1 := (k1 % 2 ^ 64) ^^^ 0x646f72616e646f6d
  let v2 := (k0 % 2 ^ 64) ^^^ 0x6c7967656e657261
  let v3 := (k1 % 2 ^ 64) ^^^ 0x7465646279746573
  let (st, tail) := sipBlocks 2 (v0, v1, v2, v3) msg
  let b := ((msg.length % 256) <<< 56) ||| leVal tail
  let st := sipCompress 2 st b
  let st := (st.1, st.2.1, st.2.2.1 ^^^ 0xff, st.2.2.2)
  let st := sipRound^[4] st
  st.1 ^^^ st.2.1 ^^^ st.2.2.1 ^^^ st.2.2.2

/-- The streaming `std::hash::SipHasher` state. Rust buffers written bytes
internally so that `finish` equals the one-shot hash of the concatenation
of all written bytes; the model carries that concatenation directly. -/
structure SipHasher where
  k0 : Nat
  k1 : Nat
  buf : List Nat

def SipHasher.newWithKeys (k0 k1 : Nat) : SipHasher :=
  { k0 := k0, k1 := k1, buf := [] }

def SipHasher.write (h : SipHasher) (bytes : List Nat) : SipHasher :=
  { h with buf := h.buf ++ bytes }

/-- `Hash for str`: write the UTF-8 bytes followed by a `0xFF` terminator
byte (the standard library's string-hash framing). -/
def SipHasher.writeStrHash (h : SipHasher) (s : String) : SipHasher :=
  (h.write (utf8Bytes s)).write [0xFF]

/-- `Hash for u8`: write the single byte. -/
def SipHasher.writeU8Hash (h : SipHasher) (b : Nat) : SipHasher :=
  h.write [b % 256]

def SipHasher.finish (h : SipHasher) : Nat :=
  sipHash24 h.k0 h.k1 h.buf

/-- `compute_keyed_hash`: take `k0, k1` from the first 16 key bytes
(little-endian, zero when the key is short), hash
`facts_yaml`, a `0u8` separator, then `rulespec_yaml` through the
`Hash`-trait framing, and finish. -/
def compute_keyed_hash (key : List Nat) (facts_yaml rulespec_yaml : String) : Nat :=
  let k0 := if 8 ≤ key.length then leVal (key.take 8) else 0
  let k1 := if 16 ≤ key.length then leVal ((key.drop 8).take 8) else 0
  ((((SipHasher.newWithKeys k0 k1).writeStrHash facts_yaml).writeU8Hash
      0).writeStrHash rulespec_yaml).finish

/-- The URL-safe base64 alphabet character for a 6-bit value. -/
def base64UrlChar (n : Nat) : Char :=
  if n < 26 then Char.ofNat (65 + n)
  else if n < 52 then Char.ofNat (97 + (n - 26))
  else if n < 62 then Char.ofNat (48 + (n - 52))
  else if n = 62 then '-'
  else '_'

/-- URL-safe base64 without padding (`base64::URL_SAFE_NO_PAD`). -/
def base64UrlNoPad : List Nat → List Char
  | [] => []
  | [a] =>
    [base64UrlChar ((a % 256) >>> 2), base64UrlChar (((a % 256) &&& 0x3) <<< 4)]
  | [a, b] =>
    [base64UrlChar ((a % 256) >>> 2),
     base64UrlChar ((((a % 256) &&& 0x3) <<< 4) ||| ((b % 256) >>> 4)),
     base64UrlChar (((b % 256) &&& 0xF) <<< 2)]
  | a :: b :: c :: rest =>
    base64UrlChar ((a % 256) >>> 2) ::
    base64UrlChar ((((a % 256) &&& 0x3) <<< 4) ||| ((b % 256) >>> 4)) ::
    base64UrlChar ((((b % 256) &&& 0xF) <<< 2) ||| ((c % 256) >>> 6)) ::
    base64UrlChar ((c % 256) &&& 0x3F) :: base64UrlNoPad rest

/-- URL-safe, unpadded base64 encoding as a string. -/
def base64UrlNoPadStr (bytes : List Nat) : String :=
  String.mk (base64UrlNoPad bytes)

/-! ## Canonical YAML forms and `mint_token` (`envelope.rs`) -/

mutual

/-- Modelled from the spec: the stable YAML emitter (`serde_yaml::to_string`,
external to this repository). The model is a deterministic flow-style
rendering; the claims settled here depend only on the emitter being a
deterministic function of the value, never on the exact text. -/
def emitYaml : Yaml → String
  | .null => "null"
  | .bool b => if b then "true" else "false"
  | .num rep => rep
  | .str s => s
  | .seq items => "[" ++ String.intercalate ", " (emitYamlList items) ++ "]"
  | .map entries => "\x7b" ++ String.intercalate ", " (emitYamlMap entries) ++ "\x7d"

def emitYamlList : List Yaml → List String
  | [] => []
  | v :: vs => emitYaml v :: emitYamlList vs

def emitYamlMap : List (String × Yaml) → List String
  | [] => []
  | (k, v) :: rest => (k ++ ": " ++ emitYaml v) :: emitYamlMap rest

end

/-- Lexicographic comparison of strings by character code (Rust's `String`
ordering, used by `sort_by_key`). -/
def charListLe : List Char → List Char → Bool
  | [], _ => true
  | _ :: _, [] => false
  | a :: as, b :: bs =>
    if a.toNat < b.toNat then true
    else if b.toNat < a.toNat then false
    else charListLe as bs

/-- Insert a fact into a key-sorted fact list. -/
def insertSortedFact (x : String × Yaml) : List (String × Yaml) → List (String × Yaml)
  | [] => [x]
  | y :: ys =>
    if charListLe x.1.data y.1.data then x :: y :: ys else y :: insertSortedFact x ys

/-- `sort_by_key` on the fact pairs (insertion sort; `HashMap` keys are
unique, so stability is immaterial). -/
def sortFactsByKey (l : List (String × Yaml)) : List (String × Yaml) :=
  l.foldr insertSortedFact []

/-- `canonical_facts_yaml`: sort the envelope facts by key, rebuild the
mapping in sorted order, and emit it (the `verified` field never enters). -/
def canonical_facts_yaml (envelope : ActionEnvelope) : String :=
  let sorted_facts := sortFactsByKey envelope.facts
  emitYaml (.map sorted_facts)

/-- The serde `snake_case` name of a predicate rule tag. -/
def ruleName : PredicateRule → String
  | .contains => "contains"
  | .equals => "equals"
  | .exists => "exists"
  | .notExists => "not_exists"
  | .greaterThan => "greater_than"
  | .lessThan => "less_than"
  | .minLength => "min_length"
  | .maxLength => "max_length"
  | .matches => "matches"
  | .notContains => "not_contains"
  | .anyOf => "any_of"
  | .noneOf => "none_of"

/-- Modelled from the spec: the stable YAML emitter applied to the full
rulespec (`serde_yaml::to_string(rulespec)`, external to this repository);
a deterministic rendering of claims and predicates. -/
def canonical_rulespec_yaml (rulespec : Rulespec) : String :=
  let emitWhen := fun (w : WhenCondition) =>
    "\x7bclaim: " ++ w.claim ++ ", rule: " ++ ruleName w.rule ++
      (match w.value with
       | some v => ", value: " ++ emitYaml v
       | none => "") ++ "\x7d"
  let emitPred := fun (p : Predicate) =>
    "\x7bclaim: " ++ p.claim ++ ", rule: " ++ ruleName p.rule ++
      (match p.value with
       | some v => ", value: " ++ emitYaml v
       | none => "") ++
      ", source: " ++ (match p.source with
       | .taskPrompt => "task_prompt"
       | .memory => "memory") ++
      (match p.notes with
       | some n => ", notes: " ++ n
       | none => "") ++
      (match p.when with
       | some w => ", when: " ++ emitWhen w
       | none => "") ++ "\x7d"
  let emitClaim := fun (c : Claim) =>
    "\x7bname: " ++ c.name ++ ", selector: " ++ c.selector ++ "\x7d"
  "claims: [" ++ String.intercalate ", " (rulespec.claims.map emitClaim) ++
    "]\npredicates: [" ++ String.intercalate ", " (rulespec.predicates.map emitPred) ++ "]\n"

/-- `mint_token`: the keyed SipHash MAC over the canonical facts and the
canonical rulespec, URL-safe base64 encoded and prefixed `g3v1:`. -/
def mint_token (key : List Nat) (envelope : ActionEnvelope) (rulespec : Rulespec) : String :=
  let facts_yaml := canonical_facts_yaml envelope
  let rulespec_yaml := canonical_rulespec_yaml rulespec
  let hash := compute_keyed_hash key facts_yaml rulespec_yaml
  "g3v1:" ++ base64UrlNoPadStr (toLeBytes hash)

/-! ## File-system state and the verification pipeline (`envelope.rs`)

The session's relevant on-disk state: the working directory's rulespec,
the session's envelope file, and the host key file. Files are carried in
parsed form (a present file is modelled as parsing successfully); the
audit artifacts (`rulespec.compiled.dl`, `datalog_evaluation.txt`) do not
influence the envelope or the token and are not carried. -/

structure SessState where
  rulespecFile : Option Rulespec
  envelopeFile : Option ActionEnvelope
  keyFile : Option (List Nat)

/-- `read_verification_key`: `none` when the file is absent or not exactly
32 bytes. -/
def read_verification_key (s : SessState) : Option (List Nat) :=
  match s.keyFile with
  | none => none
  | some k => if k.length = 32 then some k else none

/-- `get_or_create_verification_key`: reuse a well-formed existing key,
otherwise write a freshly generated key (`fresh` models the 32 random
bytes drawn when creation is needed). Returns the key and the updated
state. -/
def getOrCreateKey (fresh : List Nat) (s : SessState) : List Nat × SessState :=
  match s.keyFile with
  | some k =>
    if k.length = 32 then (k, s) else (fresh, { s with keyFile := some fresh })
  | none => (fresh, { s with keyFile := some fresh })

/-- `stamp_envelope`: get-or-create the key, mint the token over the
envelope with `verified` cleared, set `verified`, rewrite the envelope
file. -/
def stamp_envelope (fresh : List Nat) (s : SessState) (envelope : ActionEnvelope)
    (rulespec : Rulespec) : SessState :=
  let (key, s1) := getOrCreateKey fresh s
  let clean := { envelope with verified := none }
  let token := mint_token key clean rulespec
  { s1 with envelopeFile := some { envelope with verified := some token } }

/-- `verify_envelope`: read the rulespec, compile it, read the envelope,
extract facts, execute the rules, and stamp the envelope exactly when
`failed_count == 0 && passed_count > 0`. Returns the summary string for
the tool output and the updated state. -/
def verify_envelope (fresh : List Nat) (s : SessState) : String × SessState :=
  match s.rulespecFile with
  | none => ("\nNo rulespec found - skipping invariant verification.\n", s)
  | some rulespec =>
    match compile_rulespec rulespec "envelope-verify" 0 with
    | .error e => ("\nFailed to compile rulespec: " ++ e ++ "\n", s)
    | .ok compiled =>
      if compiled.predicates.isEmpty then
        ("\nRulespec has no predicates - skipping invariant verification.\n", s)
      else
        match s.envelopeFile with
        | none => ("\nNo envelope found - skipping invariant verification.\n", s)
        | some envelope =>
          let facts := extract_facts envelope compiled
          let result := execute_rules compiled facts
          let s' :=
            if result.failed_count = 0 && result.passed_count > 0 then
              stamp_envelope fresh s envelope rulespec
            else s
          let summary :=
            if result.failed_count = 0 then
              "\nInvariant verification: " ++ toString result.passed_count ++ "/" ++
                toString (result.passed_count + result.failed_count) ++ " passed\n"
            else
              "\nInvariant verification: " ++ toString result.passed_count ++ "/" ++
                toString (result.passed_count + result.failed_count) ++ " passed, " ++
                toString result.failed_count ++ " failed\n"
          (summary, s')

/-- `verify_token`: the cross-process verification entry point over the
on-disk state. -/
def verify_token (session_id : String) (s : SessState) : Except String Bool :=
  match read_verification_key s with
  | none => .error "Verification key not found at ~/.g3/verification.key"
  | some key =>
    match s.envelopeFile with
    | none => .error ("Envelope not found for session " ++ session_id)
    | some envelope =>
      match envelope.verified with
      | none => .ok false
      | some stored_token =>
        match s.rulespecFile with
        | none => .error "Rulespec not found at <working_dir>/analysis/rulespec.yaml"
        | some rulespec =>
          let clean_envelope := { envelope with verified := none }
          let expected_token := mint_token key clean_envelope rulespec
          .ok (stored_token = expected_token)

/-- The guidance message returned for an envelope with empty `facts`. -/
def emptyFactsGuidance : String :=
  "❌ Envelope has empty facts. The YAML must contain a non-empty `facts` " ++
  "top-level key. Example:\n\n```yaml\nfacts:\n  my_feature:\n    " ++
  "capabilities: [feature_a, feature_b]\n    file: \"src/my_feature.rs\"\n```"

/-- `execute_write_envelope`: the agent-facing tool. `parsed` models the
outcome of `serde_yaml::from_str` on the provided facts YAML (`none` for
a missing `facts` argument). Returns the tool output and the updated
state. -/
def execute_write_envelope (sessionActive : Bool)
    (parsed : Option (Except String ActionEnvelope)) (fresh : List Nat)
    (s : SessState) : String × SessState :=
  if !sessionActive then
    ("❌ No active session - envelopes are session-scoped.", s)
  else
    match parsed with
    | none => ("❌ Missing 'facts' argument. Provide the envelope facts as YAML.", s)
    | some (.error e) => ("❌ Invalid envelope YAML: " ++ e, s)
    | some (.ok envelope) =>
      if envelope.facts.isEmpty then
        (emptyFactsGuidance, s)
      else
        let s1 := { s with envelopeFile := some envelope }
        let (note, s2) := verify_envelope fresh s1
        ("✅ Envelope written.\n" ++ note, s2)

/-! ## SDLC pipeline state machine (`studio/src/sdlc.rs`)

Timestamps are opaque naturals; only the operations the claims touch are
embedded. -/

inductive StageStatus where
  | pending
  | running
  | complete (duration_secs : Nat) (commits_processed : Nat)
  | failed (error : String) (attempts : Nat)
  | skipped (reason : String)
deriving Repr, DecidableEq

structure StageState where
  name : String
  status : StageStatus
  started_at : Option Nat
  completed_at : Option Nat
  last_commit : Option String
deriving Repr, DecidableEq

structure PipelineState where
  run_id : String
  current_stage : Nat
  stages : List StageState
deriving Repr, DecidableEq

/-- `PipelineState::mark_failed`: a consecutive failure increments the
`attempts` counter carried inside the `failed` status; any other prior
status starts it at 1. -/
def mark_failed (p : PipelineState) (error : String) : PipelineState :=
  match p.stages.get? p.current_stage with
  | none => p
  | some stage =>
    let attempts :=
      match stage.status with
      | .failed _ n => n + 1
      | _ => 1
    let stage' := { stage with status := .failed error attempts }
    { p with stages := p.stages.set p.current_stage stage' }

/-- `PipelineState::retry_stage`: only a failed stage may be retried; its
status returns to `pending` and `started_at` is cleared. -/
def retry_stage (p : PipelineState) : Except String PipelineState :=
  match p.stages.get? p.current_stage with
  | none => .error "Invalid current stage index"
  | some stage =>
    match stage.status with
    | .failed _ _ =>
      let stage' := { stage with status := .pending, started_at := none }
      .ok { p with stages := p.stages.set p.current_stage stage' }
    | _ => .error ("Stage '" ++ stage.name ++ "' is not in failed state")

/-! ## Helper lemmas -/

theorem lookupValues_eq_nil (facts : List Fact) (name : String)
    (h : ∀ f ∈ facts, f.claim_name ≠ name) : lookupValues facts name = [] := by
  unfold lookupValues
  have : facts.filter (fun f => f.claim_name = name) = [] := by
    rw [List.filter_eq_nil_iff]
    intro f hf
    simpa using h f hf
  rw [this]
  rfl

/-- The selection actually used by `extract_facts` for one claim: the
selector run against the envelope value, falling back to the
`facts`-wrapped value when the first pass is empty (empty on a selector
that fails to parse, which `extract_facts` skips). -/
def effectiveSelect (envelope : ActionEnvelope) (selector_str : String) : List Yaml :=
  match Selector.parse selector_str with
  | .error _ => []
  | .ok selector =>
    let envelope_value := envelope.to_yaml_value
    let wrapped_value := Yaml.map [("facts", envelope_value)]
    let values := selector.select envelope_value
    if values.isEmpty then selector.select wrapped_value else values

theorem claimFacts_eq_effectiveSelect (e : ActionEnvelope) (cn sel : String) :
    claimFacts e.to_yaml_value (Yaml.map [("facts", e.to_yaml_value)]) cn sel =
      (effectiveSelect e sel).flatMap (extractValuesRec cn) := by
  unfold claimFacts effectiveSelect
  cases Selector.parse sel with
  | error e => rfl
  | ok s => simp

theorem flatMap_extract_null (cn : String) (l : List Yaml)
    (h : ∀ v ∈ l, v = Yaml.null) : l.flatMap (extractValuesRec cn) = [] := by
  induction l with
  | nil => rfl
  | cons v vs ih =>
    have hv : v = Yaml.null := h v (by simp)
    have hvs : vs.flatMap (extractValuesRec cn) = [] :=
      ih (fun w hw => h w (by simp [hw]))
    simp [hv, hvs, extractValuesRec]

/-! ## Claims -/

/-- Claim C2: `mint_token` is blind to the `verified` field — for every
key, envelope, and rulespec, the token is the same for every value of
`verified` as with `verified` cleared; the field never enters the token
derivation. -/
theorem c2_token_blindness (key : List Nat) (e : ActionEnvelope) (X : Option String)
    (r : Rulespec) :
    mint_token key { e with verified := X } r =
      mint_token key { e with verified := none } r := rfl

/-- Claim C5: a `write_envelope` input that parses to an envelope with an
empty `facts` map returns the guidance message and leaves the state (the
envelope file, the key file) unchanged: nothing is written, no token is
minted. -/
theorem c5_empty_facts_rejected (fresh : List Nat) (s : SessState)
    (e : ActionEnvelope) (h : e.facts = []) :
    execute_write_envelope true (some (.ok e)) fresh s = (emptyFactsGuidance, s) := by
  simp [execute_write_envelope, h]

theorem c5_empty_facts_rejected_witness :
    (⟨[], none⟩ : ActionEnvelope).facts = [] ∧
      execute_write_envelope true (some (.ok ⟨[], none⟩)) (List.replicate 32 2)
          ⟨none, none, none⟩ =
        (emptyFactsGuidance, ⟨none, none, none⟩) :=
  ⟨rfl, c5_empty_facts_rejected (List.replicate 32 2) ⟨none, none, none⟩ ⟨[], none⟩ rfl⟩

/-- Claim C10: when no `<claim>.__length` fact exists, `min_length` and
`max_length` treat the length as 0: `max_length n` passes for every bound
`n`, and `min_length n` passes exactly when `n = 0`. -/
theorem c10_missing_length_defaults (facts : List Fact) (cn sel sv : String)
    (idmax idmin : Nat) (n : Nat) (src : InvariantSource)
    (hn : parseUsize sv = some n)
    (h : ∀ f ∈ facts, f.claim_name ≠ cn ++ ".__length") :
    (evaluate_predicate_datalog
        ⟨idmax, cn, sel, .maxLength, some sv, src, none, none⟩ facts).passed = true ∧
    ((evaluate_predicate_datalog
        ⟨idmin, cn, sel, .minLength, some sv, src, none, none⟩ facts).passed = true ↔
      n = 0) := by
  have hlv : lookupValues facts (cn ++ ".__length") = [] := lookupValues_eq_nil facts _ h
  constructor
  · simp [evaluate_predicate_datalog, hlv, hn]
  · simp [evaluate_predicate_datalog, hlv, hn]
    by_cases hz : n = 0 <;> simp [hz]

/-- Claim C6 (counterexample): a claim whose selector selects only YAML
null does not always make `exists` fail and `not_exists` pass — another
claim's mapping extraction can emit nested facts under the same dotted
name. With claims `a ↦ x`, `a.b ↦ y` and envelope
`x: {b: "1"}, y: null`, the claim `a.b` selects only null, yet claim `a`
extracts the fact `("a.b", "1")`, so `exists` on `a.b` passes and
`not_exists` fails. -/
theorem c6_counterexample :
    (∀ v ∈ effectiveSelect
        ⟨[("x", Yaml.map [("b", Yaml.str "1")]), ("y", Yaml.null)], none⟩ "y",
      v = Yaml.null) ∧
    ("a.b", "y") ∈
      (⟨"t", 0, [], [("a", "x"), ("a.b", "y")]⟩ : CompiledRulespec).claims ∧
    (evaluate_predicate_datalog ⟨0, "a.b", "y", .exists, none, .taskPrompt, none, none⟩
        (extract_facts
          ⟨[("x", Yaml.map [("b", Yaml.str "1")]), ("y", Yaml.null)], none⟩
          ⟨"t", 0, [], [("a", "x"), ("a.b", "y")]⟩)).passed = true ∧
    (evaluate_predicate_datalog ⟨0, "a.b", "y", .notExists, none, .taskPrompt, none, none⟩
        (extract_facts
          ⟨[("x", Yaml.map [("b", Yaml.str "1")]), ("y", Yaml.null)], none⟩
          ⟨"t", 0, [], [("a", "x"), ("a.b", "y")]⟩)).passed = false := by
  refine ⟨?_, by simp, rfl, rfl⟩
  intro v hv
  rw [show effectiveSelect
      ⟨[("x", Yaml.map [("b", Yaml.str "1")]), ("y", Yaml.null)], none⟩ "y" =
    [Yaml.null] from rfl] at hv
  simpa using hv

/-- Claim C6 (amended): when a claim's selector selects only YAML null
values (over the selection `extract_facts` actually uses), the claim's
own extraction contributes no fact at all; and provided no fact extracted
from the other claims bears that claim's name (nested-map extraction can
alias it), the datalog executor's `exists` predicate on that claim fails
and its `not_exists` predicate passes. -/
theorem c6_null_suppression (e : ActionEnvelope) (c : CompiledRulespec)
    (cn sel : String) (_hmem : (cn, sel) ∈ c.claims)
    (hnull : ∀ v ∈ effectiveSelect e sel, v = Yaml.null) :
    claimFacts e.to_yaml_value (Yaml.map [("facts", e.to_yaml_value)]) cn sel = [] ∧
    ((∀ f ∈ extract_facts e c, f.claim_name ≠ cn) →
      ∀ (idx : Nat) (sel' : String) (ev : Option String) (src : InvariantSource)
        (nt : Option String),
        (evaluate_predicate_datalog ⟨idx, cn, sel', .exists, ev, src, nt, none⟩
            (extract_facts e c)).passed = false ∧
        (evaluate_predicate_datalog ⟨idx, cn, sel', .notExists, ev, src, nt, none⟩
            (extract_facts e c)).passed = true) := by
  constructor
  · rw [claimFacts_eq_effectiveSelect]
    exact flatMap_extract_null cn _ hnull
  · intro hno idx sel' ev src nt
    have hlv : lookupValues (extract_facts e c) cn = [] :=
      lookupValues_eq_nil _ _ hno
    constructor
    · simp [evaluate_predicate_datalog, hlv]
    · simp [evaluate_predicate_datalog, hlv]

theorem c6_null_suppression_witness :
    (("breaking", "breaking_changes") ∈
        (⟨"t", 0, [], [("breaking", "breaking_changes")]⟩ : CompiledRulespec).claims) ∧
      (∀ v ∈ effectiveSelect ⟨[("breaking_changes", Yaml.null)], none⟩
          "breaking_changes", v = Yaml.null) ∧
      claimFacts (ActionEnvelope.to_yaml_value ⟨[("breaking_changes", Yaml.null)], none⟩)
          (Yaml.map [("facts",
            ActionEnvelope.to_yaml_value ⟨[("breaking_changes", Yaml.null)], none⟩)])
          "breaking" "breaking_changes" = [] ∧
      (evaluate_predicate_datalog
          ⟨0, "breaking", "breaking_changes", .exists, none, .taskPrompt, none, none⟩
          (extract_facts ⟨[("breaking_changes", Yaml.null)], none⟩
            ⟨"t", 0, [], [("breaking", "breaking_changes")]⟩)).passed = false ∧
      (evaluate_predicate_datalog
          ⟨0, "breaking", "breaking_changes", .notExists, none, .taskPrompt, none, none⟩
          (extract_facts ⟨[("breaking_changes", Yaml.null)], none⟩
            ⟨"t", 0, [], [("breaking", "breaking_changes")]⟩)).passed = true := by
  have hnull : ∀ v ∈ effectiveSelect ⟨[("breaking_changes", Yaml.null)], none⟩
      "breaking_changes", v = Yaml.null := by
    intro v hv
    rw [show effectiveSelect ⟨[("breaking_changes", Yaml.null)], none⟩
        "breaking_changes" = [Yaml.null] from rfl] at hv
    simpa using hv
  have hno : ∀ f ∈ extract_facts ⟨[("breaking_changes", Yaml.null)], none⟩
      ⟨"t", 0, [], [("breaking", "breaking_changes")]⟩, f.claim_name ≠ "breaking" := by
    intro f hf
    rw [show extract_facts ⟨[("breaking_changes", Yaml.null)], none⟩
        ⟨"t", 0, [], [("breaking", "breaking_changes")]⟩ = [] from rfl] at hf
    exact absurd hf (List.not_mem_nil f)
  have h := c6_null_suppression ⟨[("breaking_changes", Yaml.null)], none⟩
    ⟨"t", 0, [], [("breaking", "breaking_changes")]⟩ "breaking" "breaking_changes"
    (by simp) hnull
  exact ⟨by simp, hnull, h.1,
    (h.2 hno 0 "breaking_changes" none .taskPrompt none).1,
    (h.2 hno 0 "breaking_changes" none .taskPrompt none).2⟩

/-- Claim C7 (counterexample): prefix tolerance fails when the envelope
itself carries a top-level fact named `facts` — the prefixed selector
`facts.a` finds it on the first pass (no fallback), while the stripped
selector `a` finds nothing on either pass, so the two fact sets differ. -/
theorem c7_counterexample :
    (⟨"c", "1"⟩ : Fact) ∈ extract_facts
        ⟨[("facts", Yaml.map [("a", Yaml.str "1")])], none⟩
        ⟨"t", 0, [], [("c", "facts.a")]⟩ ∧
    (⟨"c", "1"⟩ : Fact) ∉ extract_facts
        ⟨[("facts", Yaml.map [("a", Yaml.str "1")])], none⟩
        ⟨"t", 0, [], [("c", "a")]⟩ := by
  decide

theorem parse_segments_ne_nil (s : String) (sel : Selector)
    (h : Selector.parse s = .ok sel) : sel.segments ≠ [] := by
  simp only [Selector.parse] at h
  split at h
  · exact absurd h (by simp)
  · cases hx : parseChars (trimChars s).data (ParseMode.top "") with
    | error err => simp [hx] at h
    | ok segs =>
      cases segs with
      | nil => simp [hx] at h
      | cons a as =>
        simp only [hx] at h
        cases h
        simp

theorem selectSegs_wrapped_nil (M : Yaml) (segs : List SelectorSegment)
    (hne : segs ≠ [])
    (hhd : ∀ hd tl, segs = hd :: tl → hd ≠ SelectorSegment.field "facts") :
    selectSegs segs (Yaml.map [("facts", M)]) = [] := by
  cases segs with
  | nil => exact absurd rfl hne
  | cons hd tl =>
    cases hd with
    | field name =>
      have : name ≠ "facts" := by
        intro hn
        exact hhd _ tl rfl (by rw [hn])
      simp [selectSegs, lookupMap, Ne.symm this]
    | index i => simp [selectSegs]
    | wildcard => simp [selectSegs]

theorem claimFacts_strip_facts (e : ActionEnvelope) (n sel rest : String)
    (segs : List SelectorSegment)
    (henv : lookupMap e.facts "facts" = none)
    (hp : Selector.parse sel = .ok ⟨.field "facts" :: segs⟩)
    (hq : Selector.parse rest = .ok ⟨segs⟩)
    (hhd : ∀ hd tl, segs = hd :: tl → hd ≠ SelectorSegment.field "facts") :
    claimFacts e.to_yaml_value (Yaml.map [("facts", e.to_yaml_value)]) n sel =
      claimFacts e.to_yaml_value (Yaml.map [("facts", e.to_yaml_value)]) n rest := by
  have hne : segs ≠ [] := by
    simpa using parse_segments_ne_nil rest ⟨segs⟩ hq
  unfold claimFacts
  rw [hp, hq]
  simp only [Selector.select]
  have hfirst : selectSegs (SelectorSegment.field "facts" :: segs) e.to_yaml_value = [] := by
    simp [selectSegs, ActionEnvelope.to_yaml_value, henv]
  have hwrapped : selectSegs (SelectorSegment.field "facts" :: segs)
      (Yaml.map [("facts", e.to_yaml_value)]) = selectSegs segs e.to_yaml_value := by
    simp [selectSegs, lookupMap]
  rw [hfirst, hwrapped]
  simp only [List.isEmpty_nil, if_true]
  cases hv : selectSegs segs e.to_yaml_value with
  | nil =>
    simp [selectSegs_wrapped_nil e.to_yaml_value segs hne hhd]
  | cons x xs =>
    simp

/-- Claim C7 (amended): for every envelope whose top-level `facts` map has
no key literally named `facts`, and every compiled rulespec whose claim
selectors all have the form `facts.<rest>` where `<rest>` is itself a
valid selector whose first segment is not the field `facts`,
`extract_facts` produces the same facts as with the `facts.` prefix
removed from every selector. -/
theorem c7_prefix_tolerance_amended (e : ActionEnvelope) (c c' : CompiledRulespec)
    (henv : lookupMap e.facts "facts" = none)
    (hrel : List.Forall₂ (fun (p q : String × String) =>
      p.1 = q.1 ∧ ∃ rest segs,
        p.2 = "facts." ++ rest ∧ q.2 = rest ∧
        Selector.parse p.2 = .ok ⟨.field "facts" :: segs⟩ ∧
        Selector.parse rest = .ok ⟨segs⟩ ∧
        (∀ hd tl, segs = hd :: tl → hd ≠ SelectorSegment.field "facts"))
      c.claims c'.claims) :
    extract_facts e c = extract_facts e c' := by
  unfold extract_facts
  revert hrel
  generalize c.claims = ps
  generalize c'.claims = qs
  intro hrel
  induction hrel with
  | nil => rfl
  | cons hpq _ ih =>
    rename_i p q ps' qs' _
    obtain ⟨hname, rest, segs, _hpre, hrest, hp, hq, hhd⟩ := hpq
    simp only [List.flatMap_cons, ih]
    rw [hname]
    rw [claimFacts_strip_facts e q.1 p.2 rest segs henv hp hq hhd]
    rw [hrest]

theorem c7_prefix_tolerance_amended_witness :
    lookupMap ([("feature", Yaml.map [("done", Yaml.bool true)])]) "facts" = none ∧
      "facts.feature.done" = "facts." ++ "feature.done" ∧
      extract_facts ⟨[("feature", Yaml.map [("done", Yaml.bool true)])], none⟩
          ⟨"t", 0, [], [("c", "facts.feature.done")]⟩ =
        extract_facts ⟨[("feature", Yaml.map [("done", Yaml.bool true)])], none⟩
          ⟨"t", 0, [], [("c", "feature.done")]⟩ := by
  refine ⟨rfl, rfl, ?_⟩
  apply c7_prefix_tolerance_amended
  · rfl
  · refine List.Forall₂.cons ⟨rfl, "feature.done",
      [.field "feature", .field "done"], rfl, rfl, rfl, rfl, ?_⟩ List.Forall₂.nil
    intro hd tl hh
    have hhd : SelectorSegment.field "feature" = hd := by
      have := congrArg List.head? hh
      simpa using this
    rw [← hhd]
    decide

/-- A bracket content is legal when it is `*` or parses as a non-negative
integer index. -/
def bracketContentOk (acc : String) : Bool :=
  acc = "*" || (parseUsize acc).isSome

/-- Written from the spec's words, for comparison with `Selector.parse`:
the claimed selector invariants — non-empty, no unmatched `]`, every
bracketed index parses as a non-negative integer, and `*` appears only
inside brackets. The scanner walks the raw string, tracking whether it is
inside a bracket. -/
def specScan : List Char → Option String → Bool
  | [], none => true
  | [], some acc => bracketContentOk acc
  | c :: r, none =>
    if c = ']' then false
    else if c = '*' then false
    else if c = '[' then specScan r (some "")
    else specScan r none
  | c :: r, some acc =>
    if c = ']' then bracketContentOk acc && specScan r none
    else specScan r (some (acc.push c))

/-- The spec's selector invariants as a predicate on the input string. -/
def specSelectorInvariant (s : String) : Bool :=
  !s.isEmpty && specScan s.data none

/-- The scan that matches what `Selector.parse` accepts: like `specScan`
but a `*` outside brackets is an ordinary identifier character. -/
def codeScan : List Char → Option String → Bool
  | [], none => true
  | [], some acc => bracketContentOk acc
  | c :: r, none =>
    if c = '.' then codeScan r none
    else if c = '[' then codeScan r (some "")
    else if c = ']' then false
    else codeScan r none
  | c :: r, some acc =>
    if c = ']' then bracketContentOk acc && codeScan r none
    else codeScan r (some (acc.push c))

/-- Whether the character list produces at least one selector segment: a
bracket, or any character other than `.` (outside the error cases). -/
def hasSeg : List Char → Bool
  | [] => false
  | c :: r => if c = '.' then hasSeg r else true

/-- The characterization of the strings `Selector.parse` accepts: trimmed
input non-empty, scan passes (no stray `]`, bracket contents are `*` or a
`usize`), and at least one segment results (the trimmed input is not made
of dots alone). -/
def validSelector (s : String) : Bool :=
  let t := trimChars s
  !t.isEmpty && codeScan t.data none && hasSeg t.data

theorem isOk_map {ε α β : Type} (x : Except ε α) (f : α → β) :
    (x.map f).isOk = x.isOk := by
  cases x <;> rfl

@[simp] theorem isOk_ok {ε α : Type} (a : α) :
    (Except.ok a : Except ε α).isOk = true := rfl

@[simp] theorem isOk_error {ε α : Type} (e : ε) :
    (Except.error e : Except ε α).isOk = false := rfl

theorem bracketSeg_isOk (acc : String) :
    (bracketSeg acc).isOk = bracketContentOk acc := by
  unfold bracketSeg bracketContentOk
  by_cases h : acc = "*"
  · simp [h, Except.isOk]
  · cases hp : parseUsize acc <;> simp [h, hp, Except.isOk]

/-- The accumulator carried by the scan for a parser mode. -/
def modeAcc : ParseMode → Option String
  | .top _ => none
  | .bracket acc => some acc

theorem parseChars_isOk (l : List Char) (mode : ParseMode) :
    (parseChars l mode).isOk = codeScan l (modeAcc mode) := by
  induction l generalizing mode with
  | nil =>
    cases mode with
    | top cur => rfl
    | bracket acc => simp [parseChars, codeScan, modeAcc, isOk_map, bracketSeg_isOk]
  | cons c rest ih =>
    cases mode with
    | top cur =>
      by_cases h1 : c = '.'
      · simp [parseChars, codeScan, modeAcc, h1, isOk_map, ih (.top "")]
      · by_cases h2 : c = '['
        · simp [parseChars, codeScan, modeAcc, h1, h2, isOk_map, ih (.bracket "")]
        · by_cases h3 : c = ']'
          · simp [parseChars, codeScan, modeAcc, h1, h2, h3, Except.isOk]
          · simp [parseChars, codeScan, modeAcc, h1, h2, h3, ih (.top (cur.push c))]
    | bracket acc =>
      by_cases h : c = ']'
      · cases hb : bracketSeg acc with
        | error e =>
          have hc : bracketContentOk acc = false := by
            rw [← bracketSeg_isOk, hb]; rfl
          simp [parseChars, codeScan, modeAcc, h, hb, hc, Except.isOk]
        | ok seg =>
          have hc : bracketContentOk acc = true := by
            rw [← bracketSeg_isOk, hb]; rfl
          simp [parseChars, codeScan, modeAcc, h, hb, hc, isOk_map, ih (.top "")]
      · simp [parseChars, codeScan, modeAcc, h, ih (.bracket (acc.push c))]

theorem push_ne_empty (s : String) (c : Char) : s.push c ≠ "" := by
  intro h
  have hd := congrArg String.data h
  simp [String.push] at hd

theorem pushCur_eq_nil (cur : String) (x : List SelectorSegment) :
    pushCur cur x = [] ↔ (cur = "" ∧ x = []) := by
  unfold pushCur
  by_cases h : cur.isEmpty
  · rw [if_pos h]
    have hc : cur = "" := (String.isEmpty_iff cur).mp h
    simp [hc]
  · rw [if_neg h]
    have hc : ¬(cur = "") := fun hc => h ((String.isEmpty_iff cur).mpr hc)
    simp [hc]

theorem parseChars_bracket_ne_nil (l : List Char) (acc : String)
    (r : List SelectorSegment) (h : parseChars l (.bracket acc) = .ok r) :
    r ≠ [] := by
  induction l generalizing acc with
  | nil =>
    simp only [parseChars] at h
    cases hb : bracketSeg acc with
    | error e => rw [hb] at h; exact absurd h (by simp [Except.map])
    | ok seg =>
      rw [hb] at h
      simp only [Except.map] at h
      cases h
      simp
  | cons c rest ih =>
    simp only [parseChars] at h
    by_cases hc : c = ']'
    · rw [if_pos hc] at h
      cases hb : bracketSeg acc with
      | error e => rw [hb] at h; exact absurd h (by simp)
      | ok seg =>
        rw [hb] at h
        cases hp : parseChars rest (.top "") with
        | error e => rw [hp] at h; exact absurd h (by simp [Except.map])
        | ok t =>
          rw [hp] at h
          simp only [Except.map] at h
          cases h
          simp
    · rw [if_neg hc] at h
      exact ih (acc.push c) h

theorem parseChars_top_nil_iff (l : List Char) (cur : String)
    (r : List SelectorSegment) (h : parseChars l (.top cur) = .ok r) :
    (r = [] ↔ (cur = "" ∧ hasSeg l = false)) := by
  induction l generalizing cur r with
  | nil =>
    simp only [parseChars] at h
    cases h
    simp [hasSeg, pushCur_eq_nil]
  | cons c rest ih =>
    simp only [parseChars] at h
    by_cases h1 : c = '.'
    · rw [if_pos h1] at h
      cases hp : parseChars rest (.top "") with
      | error e => rw [hp] at h; exact absurd h (by simp [Except.map])
      | ok t =>
        rw [hp] at h
        simp only [Except.map] at h
        cases h
        rw [pushCur_eq_nil, ih "" t hp]
        simp [hasSeg, h1]
    · by_cases h2 : c = '['
      · rw [if_neg h1, if_pos h2] at h
        cases hp : parseChars rest (.bracket "") with
        | error e => rw [hp] at h; exact absurd h (by simp [Except.map])
        | ok t =>
          rw [hp] at h
          simp only [Except.map] at h
          cases h
          have ht : t ≠ [] := parseChars_bracket_ne_nil rest "" t hp
          simp [pushCur_eq_nil, ht, hasSeg, h1, h2]
      · by_cases h3 : c = ']'
        · rw [if_neg h1, if_neg h2, if_pos h3] at h
          exact absurd h (by simp)
        · rw [if_neg h1, if_neg h2, if_neg h3] at h
          rw [ih (cur.push c) r h]
          simp [hasSeg, h1, push_ne_empty]

/-- Claim C8 (counterexample): `Selector.parse` does not succeed exactly
on the spec's invariants — the string `"*"` has a `*` outside any bracket,
violating the invariants, yet it parses successfully (as the field
`"*"`); so parse success is not equivalent to the invariant list. -/
theorem c8_counterexample :
    (Selector.parse "*").isOk = true ∧ specSelectorInvariant "*" = false :=
  ⟨rfl, rfl⟩

/-- Claim C8 (amended): `Selector.parse` succeeds exactly when the
*trimmed* input is non-empty, every `]` closes an open bracket, every
bracket content is `*` or parses as a non-negative (`usize`) integer, a
`*` outside brackets being an ordinary identifier character, and the
trimmed input is not made of dots alone (so at least one segment
results). -/
theorem c8_parse_characterization (s : String) :
    (Selector.parse s).isOk = validSelector s := by
  unfold Selector.parse validSelector
  by_cases ht : (trimChars s).isEmpty
  · simp [ht]
  · cases hpc : parseChars (trimChars s).data (.top "") with
    | error e =>
      have hok := parseChars_isOk (trimChars s).data (.top "")
      rw [hpc] at hok
      simp only [modeAcc, isOk_error] at hok
      simp [ht, hpc, ← hok]
    | ok segs =>
      have hok := parseChars_isOk (trimChars s).data (.top "")
      rw [hpc] at hok
      simp only [modeAcc, isOk_ok] at hok
      cases segs with
      | nil =>
        have hnil := (parseChars_top_nil_iff _ "" [] hpc).mp rfl
        simp [ht, hpc, hnil.2]
      | cons a as =>
        have hne := parseChars_top_nil_iff _ "" (a :: as) hpc
        have hseg : hasSeg (trimChars s).data = true := by
          by_contra hf
          have : (a :: as : List SelectorSegment) = [] :=
            hne.mpr ⟨rfl, by simpa using hf⟩
          simp at this
        simp [ht, hpc, ← hok, hseg]

/-- Claim C9 (code evaluation at the failing input): consecutive failures
do increment the `attempts` counter (2 → 3 without a retry), and
`retry_stage` does return a failed stage to `pending` — but the pending
status carries no attempts, so the next `mark_failed` after a retry
restarts the counter at 1 instead of keeping the count, contradicting the
code's own "Keep the attempt count but reset to pending" comment. -/
theorem c9_retry_discards_attempts :
    ((mark_failed ⟨"r", 0, [⟨"euler", .failed "boom" 2, some 5, none, none⟩]⟩
        "boom").stages = [⟨"euler", .failed "boom" 3, some 5, none, none⟩]) ∧
    (retry_stage ⟨"r", 0, [⟨"euler", .failed "boom" 2, some 5, none, none⟩]⟩ =
      .ok ⟨"r", 0, [⟨"euler", .pending, none, none, none⟩]⟩) ∧
    ((mark_failed ⟨"r", 0, [⟨"euler", .pending, none, none, none⟩]⟩ "boom").stages =
      [⟨"euler", .failed "boom" 1, none, none, none⟩]) :=
  ⟨rfl, rfl, rfl⟩

/-- Claim C1: within `verify_envelope`, when the rulespec file is present,
compiles, has predicates, and the envelope file is present, the envelope
file is rewritten with `verified` set to the minted token exactly when the
evaluation has `failed_count == 0 && passed_count > 0`; in every other
case — a failing evaluation or any early exit — the state (and so the
envelope file) is left unchanged, keeping no stamp from this call. -/
theorem c1_stamp_iff (fresh : List Nat) (s : SessState) :
    (∀ rs c e,
      s.rulespecFile = some rs →
      compile_rulespec rs "envelope-verify" 0 = .ok c →
      c.predicates ≠ [] →
      s.envelopeFile = some e →
      (((execute_rules c (extract_facts e c)).failed_count = 0 ∧
          0 < (execute_rules c (extract_facts e c)).passed_count) →
        (verify_envelope fresh s).2.envelopeFile =
          some { e with verified := some (mint_token (getOrCreateKey fresh s).1
            { e with verified := none } rs) }) ∧
      (¬ ((execute_rules c (extract_facts e c)).failed_count = 0 ∧
          0 < (execute_rules c (extract_facts e c)).passed_count) →
        (verify_envelope fresh s).2 = s)) ∧
    ((s.rulespecFile = none ∨
      (∃ rs, s.rulespecFile = some rs ∧
        ((∃ err, compile_rulespec rs "envelope-verify" 0 = .error err) ∨
          (∃ c, compile_rulespec rs "envelope-verify" 0 = .ok c ∧
            (c.predicates = [] ∨ s.envelopeFile = none))))) →
      (verify_envelope fresh s).2 = s) := by
  constructor
  · intro rs c e h1 h2 h3 h4
    have h3' : c.predicates.isEmpty = false := by
      simpa [List.isEmpty_iff] using h3
    constructor
    · intro hcond
      rcases hk : getOrCreateKey fresh s with ⟨key, s1⟩
      simp [verify_envelope, h1, h2, h4, h3', stamp_envelope, hk,
        hcond.1, hcond.2]
    · intro hcond
      have hb : ¬ ((decide ((execute_rules c (extract_facts e c)).failed_count = 0) &&
          decide ((execute_rules c (extract_facts e c)).passed_count > 0)) = true) := by
        simp only [Bool.and_eq_true, decide_eq_true_eq]
        exact fun hc => hcond ⟨hc.1, hc.2⟩
      simp only [verify_envelope, h1, h2, h4, h3']
      simp only [Bool.false_eq_true, if_false, if_neg hb]
  · intro h
    rcases h with h | ⟨rs, hrs, h⟩
    · simp [verify_envelope, h]
    · rcases h with ⟨err, herr⟩ | ⟨c, hc, h⟩
      · simp [verify_envelope, hrs, herr]
      · rcases h with hempty | henv
        · simp [verify_envelope, hrs, hc, hempty]
        · cases hbe : c.predicates.isEmpty with
          | true => simp [verify_envelope, hrs, hc, hbe, henv]
          | false => simp [verify_envelope, hrs, hc, hbe, henv]

set_option maxRecDepth 1000000 in
theorem c1_stamp_iff_witness :
    (verify_envelope (List.replicate 32 2)
        ⟨some ⟨[⟨"f", "feature.done"⟩], [⟨"f", .exists, none, .taskPrompt, none, none⟩]⟩,
          some ⟨[("feature", Yaml.map [("done", Yaml.bool true)])], none⟩,
          some (List.replicate 32 1)⟩).2.envelopeFile =
      some { (⟨[("feature", Yaml.map [("done", Yaml.bool true)])], none⟩ :
          ActionEnvelope) with
        verified := some (mint_token
          (getOrCreateKey (List.replicate 32 2)
            ⟨some ⟨[⟨"f", "feature.done"⟩],
                [⟨"f", .exists, none, .taskPrompt, none, none⟩]⟩,
              some ⟨[("feature", Yaml.map [("done", Yaml.bool true)])], none⟩,
              some (List.replicate 32 1)⟩).1
          { (⟨[("feature", Yaml.map [("done", Yaml.bool true)])], none⟩ :
              ActionEnvelope) with verified := none }
          ⟨[⟨"f", "feature.done"⟩], [⟨"f", .exists, none, .taskPrompt, none, none⟩]⟩) } :=
  ((c1_stamp_iff (List.replicate 32 2) _).1
      ⟨[⟨"f", "feature.done"⟩], [⟨"f", .exists, none, .taskPrompt, none, none⟩]⟩
      ⟨"envelope-verify", 0,
        [⟨0, "f", "feature.done", .exists, none, .taskPrompt, none, none⟩],
        [("f", "feature.done")]⟩
      ⟨[("feature", Yaml.map [("done", Yaml.bool true)])], none⟩
      rfl rfl (List.cons_ne_nil _ _) rfl).1 ⟨rfl, by decide⟩

/-- Written from the spec's words, for comparison with `mint_token`: the
token whose MAC input message is exactly
`canonical_facts || 0x00 || canonical_rulespec`, SipHash-2-4 keyed with
`k0, k1 = key[0..8], key[8..16]`, 8 little-endian output bytes, URL-safe
unpadded base64, prefixed `g3v1:`. -/
def mintTokenSpec (key : List Nat) (envelope : ActionEnvelope) (rulespec : Rulespec) :
    String :=
  let k0 := leVal (key.take 8)
  let k1 := leVal ((key.drop 8).take 8)
  let msg := utf8Bytes (canonical_facts_yaml envelope) ++ [0x00] ++
    utf8Bytes (canonical_rulespec_yaml rulespec)
  "g3v1:" ++ base64UrlNoPadStr (toLeBytes (sipHash24 k0 k1 msg))

set_option maxRecDepth 1000000 in
/-- Claim C3 (counterexample): the token minted by the code differs from
the token whose MAC input is exactly
`canonical_facts || 0x00 || canonical_rulespec` — the `Hash`-trait
framing inserts a `0xFF` byte after each hashed string, so the claimed
message layout does not reproduce the code's token. -/
theorem c3_counterexample :
    mint_token (List.replicate 32 1)
        ⟨[("feature", Yaml.map [("done", Yaml.bool true)])], none⟩
        ⟨[⟨"f", "feature.done"⟩], [⟨"f", .exists, none, .taskPrompt, none, none⟩]⟩ ≠
      mintTokenSpec (List.replicate 32 1)
        ⟨[("feature", Yaml.map [("done", Yaml.bool true)])], none⟩
        ⟨[⟨"f", "feature.done"⟩], [⟨"f", .exists, none, .taskPrompt, none, none⟩]⟩ := by
  decide

/-- Claim C3 (amended): for every 32-byte key, `mint_token` returns
`"g3v1:"` followed by the URL-safe unpadded base64 encoding of the 8
little-endian bytes of SipHash-2-4 keyed with
`k0, k1 = key[0..8], key[8..16]`, where the hashed MAC input message is
`canonical_facts || 0xFF || 0x00 || canonical_rulespec || 0xFF` (the
standard library's string hashing appends a `0xFF` terminator to each
string's UTF-8 bytes, and the `0x00` separator byte sits between the two). -/
theorem c3_amended (key : List Nat) (e : ActionEnvelope) (r : Rulespec)
    (hkey : key.length = 32) :
    mint_token key e r =
      "g3v1:" ++ base64UrlNoPadStr (toLeBytes (sipHash24
        (leVal (key.take 8)) (leVal ((key.drop 8).take 8))
        (utf8Bytes (canonical_facts_yaml e) ++ [0xFF] ++ [0x00] ++
          utf8Bytes (canonical_rulespec_yaml r) ++ [0xFF]))) := by
  simp [mint_token, compute_keyed_hash, SipHasher.newWithKeys, SipHasher.writeStrHash,
    SipHasher.writeU8Hash, SipHasher.write, SipHasher.finish, hkey]

set_option maxRecDepth 1000000 in
theorem c3_amended_witness :
    (List.replicate 32 1 : List Nat).length = 32 ∧
      mint_token (List.replicate 32 1)
          ⟨[("feature", Yaml.map [("done", Yaml.bool true)])], none⟩
          ⟨[⟨"f", "feature.done"⟩], [⟨"f", .exists, none, .taskPrompt, none, none⟩]⟩ =
        "g3v1:" ++ base64UrlNoPadStr (toLeBytes (sipHash24
          (leVal ((List.replicate 32 1 : List Nat).take 8))
          (leVal (((List.replicate 32 1 : List Nat).drop 8).take 8))
          (utf8Bytes (canonical_facts_yaml
              ⟨[("feature", Yaml.map [("done", Yaml.bool true)])], none⟩) ++
            [0xFF] ++ [0x00] ++
            utf8Bytes (canonical_rulespec_yaml
              ⟨[⟨"f", "feature.done"⟩],
                [⟨"f", .exists, none, .taskPrompt, none, none⟩]⟩) ++ [0xFF]))) :=
  ⟨rfl, c3_amended (List.replicate 32 1) _ _ rfl⟩

/-- Claim C4 (counterexample): `verify_token` does not return an error in
every state with a missing rulespec file — when the envelope carries no
`verified` field, the `verified` check comes first and the call returns
`Ok(false)` even though the rulespec file is missing. -/
theorem c4_counterexample :
    verify_token "sid"
        ⟨none, some ⟨[("a", Yaml.str "b")], none⟩, some (List.replicate 32 1)⟩ =
      .ok false ∧
    (⟨none, some ⟨[("a", Yaml.str "b")], none⟩, some (List.replicate 32 1)⟩ :
        SessState).rulespecFile = none := by
  constructor <;> rfl

/-- Claim C4 (amended): `verify_token` checks in order — missing or
malformed key file errors; then missing envelope file errors; then an
envelope without `verified` returns `false` (before the rulespec is ever
read, so a missing rulespec does not error in that case); then a missing
rulespec errors; otherwise it returns `true` exactly when the stored token
equals the token recomputed with `mint_token` over the envelope with
`verified` cleared and the on-disk rulespec. -/
theorem c4_amended (sid : String) (s : SessState) :
    (read_verification_key s = none → ∃ m, verify_token sid s = .error m) ∧
    (∀ key, read_verification_key s = some key → s.envelopeFile = none →
      ∃ m, verify_token sid s = .error m) ∧
    (∀ key e, read_verification_key s = some key → s.envelopeFile = some e →
      e.verified = none → verify_token sid s = .ok false) ∧
    (∀ key e t, read_verification_key s = some key → s.envelopeFile = some e →
      e.verified = some t → s.rulespecFile = none →
      ∃ m, verify_token sid s = .error m) ∧
    (∀ key e t rs, read_verification_key s = some key → s.envelopeFile = some e →
      e.verified = some t → s.rulespecFile = some rs →
      verify_token sid s =
        .ok (t = mint_token key { e with verified := none } rs)) := by
  refine ⟨?_, ?_, ?_, ?_, ?_⟩
  · intro h
    exact ⟨"Verification key not found at ~/.g3/verification.key",
      by simp [verify_token, h]⟩
  · intro key hk he
    exact ⟨"Envelope not found for session " ++ sid, by simp [verify_token, hk, he]⟩
  · intro key e hk he hv
    simp [verify_token, hk, he, hv]
  · intro key e t hk he hv hr
    exact ⟨"Rulespec not found at <working_dir>/analysis/rulespec.yaml",
      by simp [verify_token, hk, he, hv, hr]⟩
  · intro key e t rs hk he hv hr
    simp [verify_token, hk, he, hv, hr]

theorem c4_amended_witness :
    read_verification_key
        ⟨some ⟨[], []⟩, some ⟨[("a", Yaml.str "b")], some "g3v1:x"⟩,
          some (List.replicate 32 1)⟩ = some (List.replicate 32 1) ∧
      verify_token "sid"
          ⟨some ⟨[], []⟩, some ⟨[("a", Yaml.str "b")], some "g3v1:x"⟩,
            some (List.replicate 32 1)⟩ =
        .ok ("g3v1:x" = mint_token (List.replicate 32 1)
          { (⟨[("a", Yaml.str "b")], some "g3v1:x"⟩ : ActionEnvelope) with
              verified := none } ⟨[], []⟩) :=
  ⟨rfl,
    (c4_amended "sid" _).2.2.2.2 (List.replicate 32 1)
      ⟨[("a", Yaml.str "b")], some "g3v1:x"⟩ "g3v1:x" ⟨[], []⟩ rfl rfl rfl rfl⟩

theorem c10_missing_length_defaults_witness :
    parseUsize "3" = some 3 ∧
      (∀ f ∈ ([] : List Fact), f.claim_name ≠ "c" ++ ".__length") ∧
      (evaluate_predicate_datalog
          ⟨0, "c", "c", .maxLength, some "3", .taskPrompt, none, none⟩ []).passed = true ∧
      ((evaluate_predicate_datalog
          ⟨1, "c", "c", .minLength, some "3", .taskPrompt, none, none⟩ []).passed = true ↔
        (3 : Nat) = 0) :=
  ⟨by decide, by simp,
    c10_missing_length_defaults [] "c" "c" "3" 0 1 3 .taskPrompt (by decide) (by simp)⟩

end G3
